import Mathlib

/-!
Verification of the deep-research-app repository: a shallow embedding of
the research pipeline (`core/research_manager.py`, `main.py`), its data
model (`models/schemas.py`) and the pure helper functions
(`utils/helpers.py`), together with theorems settling the specification
claims about them.

External LLM/agent calls (`Runner.run` of the `agents` SDK) are modelled
by an environment of oracle functions; Python exceptions are modelled by
`Except`; the async generator `ResearchManager.run` is modelled as a
function returning the list of yielded strings, the list of agent calls
made, and the exception it re-raised (if any).  The nondeterministic
completion order of `asyncio.as_completed` is a parameter: a permutation
of the planned search items.
-/

namespace DeepResearch

/-- Model of `models/schemas.py` `WebSearchItem` — a single web search to perform.
Field order as in the source: `reason`, then `query`. -/
structure WebSearchItem where
  reason : String
  query : String
deriving Repr, DecidableEq

/-- Model of `models/schemas.py` `WebSearchPlan` — a complete plan of web searches. -/
structure WebSearchPlan where
  searches : List WebSearchItem
deriving Repr, DecidableEq

/-- Model of `models/schemas.py` `ReportData` — the final research report data. -/
structure ReportData where
  short_summary : String
  markdown_report : String
  follow_up_questions : List String
deriving Repr, DecidableEq

/-- The default of `AppConfig.max_searches` in `models/schemas.py`
(`Field(default=5, ...)`). -/
def maxSearchesDefault : Nat := 5

/-- A Python exception, reduced to its message (`str(e)`). -/
structure Exn where
  msg : String
deriving Repr, DecidableEq

/-- One invocation of `Runner.run(agent, input)`, tagged by which of the four
configured agents it targets, with the input text passed to it. -/
inductive AgentCall where
  | planner (input : String)
  | searcher (input : String)
  | writer (input : String)
  | emailer (input : String)
deriving Repr, DecidableEq

/-- The external world: what each remote agent answers on a given input.
`planner` models `Runner.run(planner_agent, ·)` followed by
`final_output_as(WebSearchPlan)`, `searcher` models
`Runner.run(search_agent, ·)` followed by `str(result.final_output)`,
`writer` models `Runner.run(writer_agent, ·)` followed by
`final_output_as(ReportData)`, and `emailer` models
`Runner.run(email_agent, ·)`.  An `Except.error` models the call raising. -/
structure Env where
  planner : String → Except Exn WebSearchPlan
  searcher : String → Except Exn String
  writer : String → Except Exn ReportData
  emailer : String → Except Exn String

/-- Outcome of driving one of the async generators to completion:
the strings it yielded in order, the agent calls it performed, and the
exception that escaped it (`none` on a clean finish). -/
structure RunOutcome where
  yields : List String
  calls : List AgentCall
  raised : Option Exn
deriving Repr, DecidableEq

/-! ## Python string primitives used by the helpers -/

/-- Python `str.isspace` / `str.strip()` whitespace set (the characters
CPython `unicodedata` classes as whitespace). -/
def pyIsSpace (c : Char) : Bool :=
  c = ' ' || c = '\t' || c = '\n' || c.toNat = 11 || c.toNat = 12 || c = '\r' ||
  c.toNat = 0x1c || c.toNat = 0x1d || c.toNat = 0x1e || c.toNat = 0x1f ||
  c.toNat = 0x85 || c.toNat = 0xa0 || c.toNat = 0x1680 ||
  (0x2000 ≤ c.toNat && c.toNat ≤ 0x200a) ||
  c.toNat = 0x2028 || c.toNat = 0x2029 || c.toNat = 0x202f ||
  c.toNat = 0x205f || c.toNat = 0x3000

/-- Python `str.strip()` on the character list: drop whitespace from both
ends. -/
def pyStripChars (cs : List Char) : List Char :=
  ((cs.dropWhile pyIsSpace).reverse.dropWhile pyIsSpace).reverse

/-- Python `str.strip()`. -/
def pyStrip (s : String) : String :=
  String.mk (pyStripChars s.toList)

/-- The ASCII upper-to-lower case table of Python `str.lower()`
(the repository inputs are ASCII; non-ASCII characters are untouched). -/
def asciiCaseTable : List (Char × Char) :=
  [('A', 'a'), ('B', 'b'), ('C', 'c'), ('D', 'd'), ('E', 'e'), ('F', 'f'),
   ('G', 'g'), ('H', 'h'), ('I', 'i'), ('J', 'j'), ('K', 'k'), ('L', 'l'),
   ('M', 'm'), ('N', 'n'), ('O', 'o'), ('P', 'p'), ('Q', 'q'), ('R', 'r'),
   ('S', 's'), ('T', 't'), ('U', 'u'), ('V', 'v'), ('W', 'w'), ('X', 'x'),
   ('Y', 'y'), ('Z', 'z')]

/-- Lower one character, as Python `str.lower()` does on ASCII. -/
def pyCharLower (c : Char) : Char :=
  match asciiCaseTable.find? (fun p => p.1 = c) with
  | some p => p.2
  | none => c

/-- Python `str.lower()` (ASCII fragment). -/
def pyLower (s : String) : String :=
  String.mk (s.toList.map pyCharLower)

/-- Whether `c` is an ASCII uppercase letter (a key of the case table). -/
def isAsciiUpper (c : Char) : Bool :=
  asciiCaseTable.any (fun p => p.1 = c)

/-! ## `utils/helpers.py`: `sanitize_query` -/

/-- One of the characters removed by the `re.sub` call in `sanitize_query`:
angle brackets, the double quote (code 34) and the single quote (code 39). -/
def harmfulChar (c : Char) : Bool :=
  c = '<' || c = '>' || c.toNat = 34 || c.toNat = 39

/-- Model of `utils/helpers.py` `sanitize_query` — empty stays empty; otherwise
strip, delete the harmful characters, and truncate to 500 characters. -/
def sanitize_query (query : String) : String :=
  if query = "" then ""
  else
    let sanitized := (pyStripChars query.toList).filter (fun c => !harmfulChar c)
    let truncated := if sanitized.length > 500 then sanitized.take 500 else sanitized
    String.mk truncated

/-! ## `utils/helpers.py`: `extract_keywords` -/

/-- The stop-word set of `extract_keywords`. -/
def stop_words : List String :=
  ["the", "a", "an", "and", "or", "but", "in", "on", "at", "to", "for",
   "of", "with", "by", "is", "are", "was", "were", "be", "been", "being",
   "have", "has", "had", "do", "does", "did", "will", "would", "could",
   "should", "may", "might", "can", "this", "that", "these", "those"]

/-- A word character of the regex `\w` (ASCII fragment: letters, digits,
underscore). -/
def pyIsWordChar (c : Char) : Bool :=
  c.isAlpha || c.isDigit || c = '_'

/-- One step of splitting a character list into maximal word-character runs
(state: current run being grown leftwards, finished runs to the right). -/
def wordRunsAux (c : Char) (st : List Char × List (List Char)) :
    List Char × List (List Char) :=
  if pyIsWordChar c then (c :: st.1, st.2)
  else ([], if st.1.isEmpty then st.2 else st.1 :: st.2)

/-- Model of `re.findall(r"\b\w+\b", ·)`: the maximal nonempty runs of word
characters, in order. -/
def wordRuns (cs : List Char) : List (List Char) :=
  let st := cs.foldr wordRunsAux ([], [])
  if st.1.isEmpty then st.2 else st.1 :: st.2

/-- The filtered word list of `extract_keywords`: the words of the
lowercased text that are not stop words and are longer than 2 characters. -/
def filteredWords (text : String) : List String :=
  ((wordRuns (pyLower text).toList).map (fun cs => String.mk cs)).filter
    (fun w => !stop_words.contains w && w.length > 2)

/-- Model of `word_count[word] = word_count.get(word, 0) + 1` on an
insertion-ordered association list (Python dicts preserve insertion
order): bump the entry in place or append a fresh one. -/
def bumpCount (w : String) : List (String × Nat) → List (String × Nat)
  | [] => [(w, 1)]
  | p :: ps => if p.1 = w then (p.1, p.2 + 1) :: ps else p :: bumpCount w ps

/-- The `word_count` dict of `extract_keywords`, as an insertion-ordered
association list. -/
def countWords (ws : List String) : List (String × Nat) :=
  ws.foldl (fun acc w => bumpCount w acc) []

/-- Stable insertion for descending sort by count: the new pair goes after
every pair whose count is at least as large. -/
def insertByCountDesc (p : String × Nat) :
    List (String × Nat) → List (String × Nat)
  | [] => [p]
  | q :: qs => if q.2 < p.2 then p :: q :: qs else q :: insertByCountDesc p qs

/-- Model of `sorted(word_count.items(), key=lambda x: x[1], reverse=True)`:
Python stable descending sort by count. -/
def sortByCountDesc (l : List (String × Nat)) : List (String × Nat) :=
  l.foldl (fun acc p => insertByCountDesc p acc) []

/-- Model of `utils/helpers.py` `extract_keywords` — filter the words of the
lowercased text, count frequencies, sort descending by frequency, return
the first `max_keywords` words. -/
def extract_keywords (text : String) (max_keywords : Nat) : List String :=
  ((sortByCountDesc (countWords (filteredWords text))).take max_keywords).map
    Prod.fst

/-- Frequency of `w` among the filtered words of `text` (what
`extract_keywords` counts and sorts by). -/
def wordFreq (text : String) (w : String) : Nat :=
  (filteredWords text).count w

/-- First-match lookup in a count association list (0 when absent). -/
def lookupCount (w : String) : List (String × Nat) → Nat
  | [] => 0
  | p :: ps => if p.1 = w then p.2 else lookupCount w ps

/-- Whether `pat` is a prefix of `l` (executable). -/
def isPrefixList : List Char → List Char → Bool
  | [], _ => true
  | _ :: _, [] => false
  | a :: as, b :: bs => a == b && isPrefixList as bs

/-- Whether `pat` occurs contiguously somewhere in `l` (executable substring
occurrence, the sense in which a keyword "occurs in" a text). -/
def containsSub (pat : List Char) : List Char → Bool
  | [] => isPrefixList pat []
  | c :: cs => isPrefixList pat (c :: cs) || containsSub pat cs

/-! ## Python `repr`/`str` of a list of strings (used by the f-string of `write_report`, whose argument is a Python list of strings) -/

/-- One hexadecimal digit, lowercase, as CPython prints escape codes. -/
def hexDigitChar (n : Nat) : Char :=
  if n = 0 then '0' else if n = 1 then '1' else if n = 2 then '2'
  else if n = 3 then '3' else if n = 4 then '4' else if n = 5 then '5'
  else if n = 6 then '6' else if n = 7 then '7' else if n = 8 then '8'
  else if n = 9 then '9' else if n = 10 then 'a' else if n = 11 then 'b'
  else if n = 12 then 'c' else if n = 13 then 'd' else if n = 14 then 'e'
  else 'f'

/-- How CPython `repr` prints one character of a string literal quoted
with `quote`: escape the backslash, the quote, `\n`, `\r`, `\t`, and other
control characters as `\xhh`; print everything else verbatim (ASCII
fragment of CPython behaviour). -/
def pyCharEscape (quote : Char) (c : Char) : String :=
  if c.toNat = 92 then String.mk [Char.ofNat 92, Char.ofNat 92]
  else if c = quote then String.mk [Char.ofNat 92, quote]
  else if c = '\n' then String.mk [Char.ofNat 92, 'n']
  else if c = '\r' then String.mk [Char.ofNat 92, 'r']
  else if c = '\t' then String.mk [Char.ofNat 92, 't']
  else if c.toNat < 32 || c.toNat = 127 then
    String.mk [Char.ofNat 92, 'x', hexDigitChar (c.toNat / 16), hexDigitChar (c.toNat % 16)]
  else String.mk [c]

/-- CPython `repr` of a string: single-quoted unless the string contains a
single quote but no double quote, in which case double-quoted. -/
def pyStrRepr (s : String) : String :=
  let quote : Char :=
    if s.toList.contains (Char.ofNat 39) && !(s.toList.contains (Char.ofNat 34))
    then Char.ofNat 34 else Char.ofNat 39
  String.mk [quote] ++ String.join (s.toList.map (pyCharEscape quote)) ++ String.mk [quote]

/-- Python `sep.join(items)`. -/
def pyJoin (sep : String) : List String → String
  | [] => ""
  | [x] => x
  | x :: y :: xs => x ++ sep ++ pyJoin sep (y :: xs)

/-- CPython `str` of a `list[str]`: `repr` of each element, joined by
`", "`, in square brackets. -/
def pyListRepr (l : List String) : String :=
  "[" ++ pyJoin ", " (l.map pyStrRepr) ++ "]"

/-! ## `core/research_manager.py`: the four pipeline stages

Each stage returns its Python value together with the list of agent calls
it performed. -/

/-- The planner input built in `ResearchManager.plan_searches`:
`f"Query: {query}"`. -/
def plannerInput (query : String) : String :=
  "Query: " ++ query

/-- Model of `ResearchManager.plan_searches`: one call of the planner agent on
`plannerInput query`; its possibly-raising result is returned unchanged
(the `except` clause only logs and re-raises). -/
def plan_searches (env : Env) (query : String) :
    Except Exn WebSearchPlan × List AgentCall :=
  (env.planner (plannerInput query), [AgentCall.planner (plannerInput query)])

/-- The search-agent input built in `ResearchManager.search`:
`f"Search term: {item.query}\nReason for searching: {item.reason}"`. -/
def searchInput (item : WebSearchItem) : String :=
  "Search term: " ++ item.query ++ "\nReason for searching: " ++ item.reason

/-- Model of `ResearchManager.search`: one call of the search agent; a raising call
is caught and turned into `none` (catch-and-log). -/
def search (env : Env) (item : WebSearchItem) :
    Option String × List AgentCall :=
  (match env.searcher (searchInput item) with
   | Except.ok r => some r
   | Except.error _ => none,
   [AgentCall.searcher (searchInput item)])

/-- The number of `asyncio.create_task` calls made by
`ResearchManager.perform_searches`: zero for the empty plan (early
return), one per plan item otherwise. -/
def numSearchTasks (plan : WebSearchPlan) : Nat :=
  if plan.searches.isEmpty then 0 else plan.searches.length

/-- Model of `ResearchManager.perform_searches`: empty plan returns `[]` at once;
otherwise one `search` task per item, results collected by
`asyncio.as_completed` in completion order `order` (a permutation of
`plan.searches`), dropping the `None` results.  The `except` around
`await task` is unreachable because `search` never raises. -/
def perform_searches (env : Env) (order : List WebSearchItem)
    (plan : WebSearchPlan) : List String × List AgentCall :=
  if plan.searches.isEmpty then ([], [])
  else (order.filterMap (fun it => (search env it).1),
        List.flatten (order.map (fun it => (search env it).2)))

/-- The writer input built in `ResearchManager.write_report`:
`f"Original query: {query}\nSummarized search results: {search_results}"`. -/
def writerInput (query : String) (search_results : List String) : String :=
  "Original query: " ++ query ++ "\nSummarized search results: " ++
    pyListRepr search_results

/-- Model of `ResearchManager.write_report`: one call of the writer agent on
`writerInput`; its possibly-raising result is returned unchanged. -/
def write_report (env : Env) (query : String) (search_results : List String) :
    Except Exn ReportData × List AgentCall :=
  (env.writer (writerInput query search_results),
   [AgentCall.writer (writerInput query search_results)])

/-- Model of `ResearchManager.send_email`: one call of the email agent on the
`markdown_report` field of the report; a raising call is re-raised. -/
def send_email (env : Env) (report : ReportData) :
    Except Exn String × List AgentCall :=
  (env.emailer report.markdown_report,
   [AgentCall.emailer report.markdown_report])

/-- The `yield` emitted by the `except` clause of `ResearchManager.run` before
re-raising (the source file literally contains the mojibake `âŒ`). -/
def errorYield (e : Exn) : String :=
  "âŒ Error during research: " ++ e.msg

/-- Model of `ResearchManager.run`: the four stages in sequence, each feeding the
next, with the seven status/report yields of the success path and the
error yield + re-raise of the `except` clause.  `trace_id` stands for
`gen_trace_id()`, `order` for the completion order of the search tasks. -/
def ResearchManager.run (env : Env) (order : List WebSearchItem)
    (trace_id : String) (query : String) : RunOutcome :=
  let y0 := ["View trace: https://platform.openai.com/traces/trace?trace_id=" ++ trace_id,
             "Starting research..."]
  let (planRes, planC) := plan_searches env query
  match planRes with
  | Except.error e => ⟨y0 ++ [errorYield e], planC, some e⟩
  | Except.ok search_plan =>
    let y1 := "Searches planned (" ++ toString search_plan.searches.length ++
      " searches), starting to search..."
    let (search_results, searchC) := perform_searches env order search_plan
    let y2 := "Searches complete (" ++ toString search_results.length ++
      " results), writing report..."
    let (repRes, repC) := write_report env query search_results
    match repRes with
    | Except.error e =>
      ⟨y0 ++ [y1, y2, errorYield e], planC ++ searchC ++ repC, some e⟩
    | Except.ok report =>
      let (emRes, emC) := send_email env report
      match emRes with
      | Except.error e =>
        ⟨y0 ++ [y1, y2, "Report written, sending email...", errorYield e],
         planC ++ searchC ++ repC ++ emC, some e⟩
      | Except.ok _ =>
        ⟨y0 ++ [y1, y2, "Report written, sending email...",
          "Email sent, research complete", report.markdown_report],
         planC ++ searchC ++ repC ++ emC, none⟩

/-! ## `main.py`: the `run` entry point -/

/-- Model of the `run` entry point of `main.py`: reject empty/whitespace-only queries, sanitize, and
otherwise stream `ResearchManager.run` on the sanitized query, converting
an escaped exception into a final error yield (the error
yield has already been received). -/
def Main.run (env : Env) (order : List WebSearchItem) (trace_id : String)
    (query : String) : RunOutcome :=
  if query = "" ∨ pyStrip query = "" then
    ⟨["Please enter a research query."], [], none⟩
  else
    let sanitized_query := sanitize_query query
    if sanitized_query = "" then
      ⟨["Invalid query. Please try again."], [], none⟩
    else
      let o := ResearchManager.run env order trace_id sanitized_query
      match o.raised with
      | none => o
      | some e =>
        ⟨o.yields ++ ["An error occurred during research: " ++ e.msg], o.calls, none⟩

/-! ## Concrete fixtures used by the witness theorems -/

/-- A concrete search item. -/
def itemA : WebSearchItem := ⟨"reason one", "alpha"⟩

/-- A second concrete search item (its search will fail in `envW`). -/
def itemB : WebSearchItem := ⟨"reason two", "beta"⟩

/-- A concrete two-item search plan. -/
def planAB : WebSearchPlan := ⟨[itemA, itemB]⟩

/-- A concrete report. -/
def reportW : ReportData := ⟨"short summary", "# Report body", ["follow up"]⟩

/-- A concrete environment: the planner returns `planAB`, the search for
`itemB` raises while the one for `itemA` succeeds, and writer and email
agent succeed. -/
def envW : Env where
  planner := fun _ => Except.ok planAB
  searcher := fun s =>
    if s = searchInput itemB then Except.error ⟨"search boom"⟩
    else Except.ok ("summary for " ++ s)
  writer := fun _ => Except.ok reportW
  emailer := fun _ => Except.ok "sent"

/-- A six-item plan (more items than the default `max_searches`). -/
def planSix : WebSearchPlan := ⟨List.replicate 6 ⟨"r", "q"⟩⟩

/-! # Theorems -/

/-! ## Helper lemmas about the pipeline -/

/-- Flattening a list of singletons is a plain map. -/
theorem flatten_singletons {α β : Type} (f : α → β) :
    ∀ l : List α, List.flatten (l.map (fun a => [f a])) = l.map f := by
  intro l
  induction l with
  | nil => rfl
  | cons x xs ih => simp [ih]

/-- On the success path, `ResearchManager.run` is the explicit seven-yield,
fully sequenced outcome. -/
theorem run_eq_of_stages (env : Env) (order : List WebSearchItem)
    (tid q : String) (plan : WebSearchPlan) (report : ReportData) (ack : String)
    (hp : env.planner (plannerInput q) = Except.ok plan)
    (hw : env.writer (writerInput q (perform_searches env order plan).1) =
      Except.ok report)
    (he : env.emailer report.markdown_report = Except.ok ack) :
    ResearchManager.run env order tid q =
      ⟨["View trace: https://platform.openai.com/traces/trace?trace_id=" ++ tid,
        "Starting research...",
        "Searches planned (" ++ toString plan.searches.length ++
          " searches), starting to search...",
        "Searches complete (" ++
          toString (perform_searches env order plan).1.length ++
          " results), writing report...",
        "Report written, sending email...",
        "Email sent, research complete",
        report.markdown_report],
       [AgentCall.planner (plannerInput q)] ++ (perform_searches env order plan).2 ++
         [AgentCall.writer (writerInput q (perform_searches env order plan).1)] ++
         [AgentCall.emailer report.markdown_report],
       none⟩ := by
  simp [ResearchManager.run, plan_searches, write_report, send_email, hp, hw, he]

/-- If `ResearchManager.run` finishes without raising, all three
possibly-raising stages succeeded. -/
theorem run_success_stages (env : Env) (order : List WebSearchItem)
    (tid q : String)
    (h : (ResearchManager.run env order tid q).raised = none) :
    ∃ plan report ack,
      env.planner (plannerInput q) = Except.ok plan ∧
      env.writer (writerInput q (perform_searches env order plan).1) =
        Except.ok report ∧
      env.emailer report.markdown_report = Except.ok ack := by
  cases hp : env.planner (plannerInput q) with
  | error e =>
    exact absurd h (by simp [ResearchManager.run, plan_searches, hp])
  | ok plan =>
    cases hw : env.writer (writerInput q (perform_searches env order plan).1) with
    | error e =>
      exact absurd h
        (by simp [ResearchManager.run, plan_searches, write_report, hp, hw])
    | ok report =>
      cases he : env.emailer report.markdown_report with
      | error e =>
        exact absurd h (by
          simp [ResearchManager.run, plan_searches, write_report, send_email,
            hp, hw, he])
      | ok ack => exact ⟨plan, report, ack, hp ▸ rfl, hw, he⟩

/-- With a completion order that is a permutation of the plan,
`perform_searches` returns the non-`none` search results in completion
order. -/
theorem perform_searches_fst (env : Env) (order : List WebSearchItem)
    (plan : WebSearchPlan) (hperm : order.Perm plan.searches) :
    (perform_searches env order plan).1 =
      order.filterMap (fun it => (search env it).1) := by
  unfold perform_searches
  by_cases hemp : plan.searches.isEmpty
  · have h0 : plan.searches = [] := List.isEmpty_iff.mp hemp
    have hord : order = [] := (h0 ▸ hperm).eq_nil
    simp [hemp, hord]
  · simp [hemp]

/-- With a completion order that is a permutation of the plan,
`perform_searches` makes exactly one search-agent call per item. -/
theorem perform_searches_snd (env : Env) (order : List WebSearchItem)
    (plan : WebSearchPlan) (hperm : order.Perm plan.searches) :
    (perform_searches env order plan).2 =
      order.map (fun it => AgentCall.searcher (searchInput it)) := by
  unfold perform_searches
  by_cases hemp : plan.searches.isEmpty
  · have h0 : plan.searches = [] := List.isEmpty_iff.mp hemp
    have hord : order = [] := (h0 ▸ hperm).eq_nil
    simp [hemp, hord]
  · simp only [hemp, Bool.false_eq_true, if_false]
    exact flatten_singletons (fun it => AgentCall.searcher (searchInput it)) order

/-! ## Claim theorems -/

/-- C1: on every non-raising run, `ResearchManager.run` executes the four
stages in the order plan → search → report → email, each stage output
feeding the next: `perform_searches` is applied to the plan returned by
`plan_searches`, `write_report` to the query together with the list
returned by `perform_searches`, and the email agent receives exactly the
`markdown_report` field of the report returned by `write_report`; the
agent-call trace is the concatenation of the four stage call lists in that
order. -/
theorem run_pipeline_order (env : Env) (order : List WebSearchItem)
    (tid q : String)
    (h : (ResearchManager.run env order tid q).raised = none) :
    ∃ plan report ack,
      (plan_searches env q).1 = Except.ok plan ∧
      (write_report env q (perform_searches env order plan).1).1 =
        Except.ok report ∧
      (send_email env report).1 = Except.ok ack ∧
      (send_email env report).2 = [AgentCall.emailer report.markdown_report] ∧
      (ResearchManager.run env order tid q).calls =
        (plan_searches env q).2 ++ (perform_searches env order plan).2 ++
          (write_report env q (perform_searches env order plan).1).2 ++
          (send_email env report).2 ∧
      (ResearchManager.run env order tid q).yields.getLast? =
        some report.markdown_report := by
  obtain ⟨plan, report, ack, hp, hw, he⟩ := run_success_stages env order tid q h
  refine ⟨plan, report, ack, ?_, ?_, ?_, rfl, ?_, ?_⟩
  · simp [plan_searches, hp]
  · simp [write_report, hw]
  · simp [send_email, he]
  · rw [run_eq_of_stages env order tid q plan report ack hp hw he]
    simp [plan_searches, write_report, send_email]
  · rw [run_eq_of_stages env order tid q plan report ack hp hw he]
    rfl

/-- C1 witness: a concrete successful run, with all hypotheses discharged
by computation. -/
theorem run_pipeline_order_witness :
    ∃ (plan : WebSearchPlan) (report : ReportData) (ack : String),
      (plan_searches envW "demo").1 = Except.ok plan ∧
      (write_report envW "demo"
        (perform_searches envW [itemA, itemB] plan).1).1 = Except.ok report ∧
      (send_email envW report).1 = Except.ok ack ∧
      (send_email envW report).2 = [AgentCall.emailer report.markdown_report] ∧
      (ResearchManager.run envW [itemA, itemB] "t0" "demo").calls =
        (plan_searches envW "demo").2 ++
          (perform_searches envW [itemA, itemB] plan).2 ++
          (write_report envW "demo"
            (perform_searches envW [itemA, itemB] plan).1).2 ++
          (send_email envW report).2 ∧
      (ResearchManager.run envW [itemA, itemB] "t0" "demo").yields.getLast? =
        some report.markdown_report :=
  run_pipeline_order envW [itemA, itemB] "t0" "demo" (by decide)

/-- C4: on every non-raising run, `ResearchManager.run` yields exactly
seven strings in order — the trace link, `"Starting research..."`, the
searches-planned message with the search count of the plan, the
searches-complete message with the result count, `"Report written,
sending email..."`, `"Email sent, research complete"`, and finally the
`markdown_report` of the report, which is the last item yielded. -/
theorem run_yields_seven (env : Env) (order : List WebSearchItem)
    (tid q : String)
    (h : (ResearchManager.run env order tid q).raised = none) :
    ∃ (plan : WebSearchPlan) (report : ReportData),
      (plan_searches env q).1 = Except.ok plan ∧
      (ResearchManager.run env order tid q).yields =
        ["View trace: https://platform.openai.com/traces/trace?trace_id=" ++ tid,
         "Starting research...",
         "Searches planned (" ++ toString plan.searches.length ++
           " searches), starting to search...",
         "Searches complete (" ++
           toString (perform_searches env order plan).1.length ++
           " results), writing report...",
         "Report written, sending email...",
         "Email sent, research complete",
         report.markdown_report] ∧
      (ResearchManager.run env order tid q).yields.length = 7 ∧
      (ResearchManager.run env order tid q).yields.getLast? =
        some report.markdown_report := by
  obtain ⟨plan, report, ack, hp, hw, he⟩ := run_success_stages env order tid q h
  refine ⟨plan, report, ?_, ?_, ?_, ?_⟩
  · simp [plan_searches, hp]
  all_goals rw [run_eq_of_stages env order tid q plan report ack hp hw he]
  all_goals rfl

/-- C4 witness: the seven yields of a concrete successful run. -/
theorem run_yields_seven_witness :
    ∃ (plan : WebSearchPlan) (report : ReportData),
      (plan_searches envW "demo").1 = Except.ok plan ∧
      (ResearchManager.run envW [itemA, itemB] "t0" "demo").yields =
        ["View trace: https://platform.openai.com/traces/trace?trace_id=" ++ "t0",
         "Starting research...",
         "Searches planned (" ++ toString plan.searches.length ++
           " searches), starting to search...",
         "Searches complete (" ++
           toString (perform_searches envW [itemA, itemB] plan).1.length ++
           " results), writing report...",
         "Report written, sending email...",
         "Email sent, research complete",
         report.markdown_report] ∧
      (ResearchManager.run envW [itemA, itemB] "t0" "demo").yields.length = 7 ∧
      (ResearchManager.run envW [itemA, itemB] "t0" "demo").yields.getLast? =
        some report.markdown_report :=
  run_yields_seven envW [itemA, itemB] "t0" "demo" (by decide)

/-- C6: `plan_searches` performs exactly one LLM agent call, on the input
`"Query: " ++ query`, and returns the resulting search plan — an ordered
list of `WebSearchItem`s, each a pair of a search `query` and the
`reason` for it — unchanged. -/
theorem plan_searches_one_call (env : Env) (query : String) :
    (plan_searches env query).2 = [AgentCall.planner (plannerInput query)] ∧
    (plan_searches env query).2.length = 1 ∧
    plannerInput query = "Query: " ++ query ∧
    (plan_searches env query).1 = env.planner (plannerInput query) ∧
    ∀ plan, (plan_searches env query).1 = Except.ok plan →
      ∀ it ∈ plan.searches, it = ⟨it.reason, it.query⟩ := by
  refine ⟨rfl, rfl, rfl, rfl, ?_⟩
  intro plan _ it _
  rfl

/-- C6 witness: the single planner call of a concrete invocation. -/
theorem plan_searches_one_call_witness :
    (plan_searches envW "demo").2 =
      [AgentCall.planner (plannerInput "demo")] ∧
    itemA ∈ planAB.searches ∧ itemA = ⟨itemA.reason, itemA.query⟩ :=
  ⟨(plan_searches_one_call envW "demo").1,
   by decide,
   (plan_searches_one_call envW "demo").2.2.2.2 planAB rfl itemA (by decide)⟩

/-- C2: a failed individual search is recovered only by catch-and-log:
`search` returns `none` when the underlying agent call raises, and
`perform_searches` returns exactly the non-`none` results of searching
each planned item (in completion order), so its length is at most the
number of planned searches — and it is a total function, never raising
because of a failed search. -/
theorem search_failures_filtered :
    (∀ (env : Env) (item : WebSearchItem) (e : Exn),
        env.searcher (searchInput item) = Except.error e →
        (search env item).1 = none) ∧
    (∀ (env : Env) (order : List WebSearchItem) (plan : WebSearchPlan),
        order.Perm plan.searches →
        (perform_searches env order plan).1 =
          order.filterMap (fun it => (search env it).1) ∧
        (perform_searches env order plan).1.length ≤ plan.searches.length) := by
  constructor
  · intro env item e he
    simp [search, he]
  · intro env order plan hperm
    have hfst := perform_searches_fst env order plan hperm
    refine ⟨hfst, ?_⟩
    rw [hfst]
    calc (order.filterMap fun it => (search env it).1).length
        ≤ order.length := List.length_filterMap_le _ _
      _ = plan.searches.length := hperm.length_eq

/-- C2 witness: in `envW` the search for `itemB` raises and is turned into
`none`; a concrete `perform_searches` run keeps only the non-`none`
results and stays within the plan size. -/
theorem search_failures_filtered_witness :
    (search envW itemB).1 = none ∧
    (perform_searches envW [itemB, itemA] planAB).1 =
      [itemB, itemA].filterMap (fun it => (search envW it).1) ∧
    (perform_searches envW [itemB, itemA] planAB).1.length ≤
      planAB.searches.length :=
  ⟨search_failures_filtered.1 envW itemB ⟨"search boom"⟩ rfl,
   (search_failures_filtered.2 envW [itemB, itemA] planAB (by decide)).1,
   (search_failures_filtered.2 envW [itemB, itemA] planAB (by decide)).2⟩

/-- C5: for a plan of n items, `perform_searches` creates exactly n tasks
and makes exactly one search-agent invocation per plan item; the results
are collected in completion order (the `order` permutation), and the
empty plan yields `([], [])` — no results and no tasks. -/
theorem perform_searches_task_per_item (env : Env)
    (order : List WebSearchItem) (plan : WebSearchPlan)
    (hperm : order.Perm plan.searches) :
    numSearchTasks plan = plan.searches.length ∧
    (perform_searches env order plan).2 =
      order.map (fun it => AgentCall.searcher (searchInput it)) ∧
    (perform_searches env order plan).2.length = plan.searches.length ∧
    (perform_searches env order plan).1 =
      order.filterMap (fun it => (search env it).1) ∧
    (plan.searches = [] → perform_searches env order plan = ([], [])) := by
  have hsnd := perform_searches_snd env order plan hperm
  refine ⟨?_, hsnd, ?_, perform_searches_fst env order plan hperm, ?_⟩
  · by_cases hemp : plan.searches.isEmpty
    · simp [numSearchTasks, hemp, List.isEmpty_iff.mp hemp]
    · simp [numSearchTasks, hemp]
  · rw [hsnd, List.length_map]
    exact hperm.length_eq
  · intro h0
    simp [perform_searches, h0]

/-- C5 witness: a concrete two-item plan with completion order reversed. -/
theorem perform_searches_task_per_item_witness :
    numSearchTasks planAB = planAB.searches.length ∧
    (perform_searches envW [itemB, itemA] planAB).2 =
      [itemB, itemA].map (fun it => AgentCall.searcher (searchInput it)) ∧
    (perform_searches envW [itemB, itemA] planAB).2.length =
      planAB.searches.length ∧
    (perform_searches envW [itemB, itemA] planAB).1 =
      [itemB, itemA].filterMap (fun it => (search envW it).1) ∧
    (planAB.searches = [] → perform_searches envW [itemB, itemA] planAB = ([], [])) :=
  perform_searches_task_per_item envW [itemB, itemA] planAB (by decide)

/-- C3 counterexample: a six-item plan makes `perform_searches` create six
concurrent tasks, more than the configured default maximum of five —
nothing in the code enforces the bound. -/
theorem numSearchTasks_exceeds_default :
    numSearchTasks planSix = 6 ∧ maxSearchesDefault = 5 ∧
    ¬ numSearchTasks planSix ≤ maxSearchesDefault := by decide

/-- C3 (amended): the number of concurrent search sub-tasks created by
`perform_searches` equals the number of items in the plan; it is bounded
by the configured maximum only when the plan itself has at most that many
items (the bound is requested from the planner agent via its prompt, not
enforced). -/
theorem numSearchTasks_eq_plan_size (env : Env)
    (order : List WebSearchItem) (plan : WebSearchPlan)
    (hperm : order.Perm plan.searches) :
    numSearchTasks plan = plan.searches.length ∧
    (perform_searches env order plan).2.length = numSearchTasks plan ∧
    (plan.searches.length ≤ maxSearchesDefault →
      numSearchTasks plan ≤ maxSearchesDefault) := by
  have hlen : numSearchTasks plan = plan.searches.length := by
    by_cases hemp : plan.searches.isEmpty
    · simp [numSearchTasks, hemp, List.isEmpty_iff.mp hemp]
    · simp [numSearchTasks, hemp]
  refine ⟨hlen, ?_, fun hb => hlen ▸ hb⟩
  rw [perform_searches_snd env order plan hperm, List.length_map,
    hperm.length_eq, hlen]

/-- C3 (amended) witness: the two-item plan creates two tasks, within the
default bound of five. -/
theorem numSearchTasks_eq_plan_size_witness :
    numSearchTasks planAB = planAB.searches.length ∧
    (perform_searches envW [itemB, itemA] planAB).2.length =
      numSearchTasks planAB ∧
    (planAB.searches.length ≤ maxSearchesDefault →
      numSearchTasks planAB ≤ maxSearchesDefault) :=
  numSearchTasks_eq_plan_size envW [itemB, itemA] planAB (by decide)

/-- C8: `main.run` yields exactly `"Please enter a research query."` and
stops — performing no agent call — when the query is empty or
whitespace-only, and yields exactly `"Invalid query. Please try again."`
and stops when sanitization reduces a nonempty query to the empty
string. -/
theorem main_run_rejects :
    (∀ (env : Env) (order : List WebSearchItem) (tid query : String),
        (query = "" ∨ pyStrip query = "") →
        Main.run env order tid query =
          ⟨["Please enter a research query."], [], none⟩) ∧
    (∀ (env : Env) (order : List WebSearchItem) (tid query : String),
        ¬ (query = "" ∨ pyStrip query = "") →
        sanitize_query query = "" →
        Main.run env order tid query =
          ⟨["Invalid query. Please try again."], [], none⟩) := by
  constructor
  · intro env order tid query h
    unfold Main.run
    rw [if_pos h]
  · intro env order tid query h hs
    unfold Main.run
    rw [if_neg h]
    simp [hs]

/-- C8 witness: a whitespace-only query and a query of only harmful
characters, each rejected with the corresponding single message. -/
theorem main_run_rejects_witness :
    Main.run envW [] "t0" "   " =
      ⟨["Please enter a research query."], [], none⟩ ∧
    Main.run envW [] "t0" "<>" =
      ⟨["Invalid query. Please try again."], [], none⟩ :=
  ⟨main_run_rejects.1 envW [] "t0" "   " (Or.inr (by decide)),
   main_run_rejects.2 envW [] "t0" "<>" (by decide) (by decide)⟩

/-- C9: `sanitize_query` always returns a string of at most 500
characters containing no angle bracket, double quote or single quote; the empty input maps to
the empty string. -/
theorem sanitize_query_spec :
    (∀ q : String, (sanitize_query q).length ≤ 500) ∧
    (∀ (q : String) (c : Char), c ∈ (sanitize_query q).toList →
      harmfulChar c = false) ∧
    sanitize_query "" = "" := by
  have hmklen : ∀ l : List Char, (String.mk l).length = l.length := fun _ => rfl
  have hmktl : ∀ l : List Char, (String.mk l).toList = l := fun _ => rfl
  refine ⟨?_, ?_, rfl⟩
  · intro q
    by_cases h : q = ""
    · simp [sanitize_query, h]
    · simp only [sanitize_query, h, if_false, hmklen]
      split
      · simp [List.length_take]
      · omega
  · intro q c hc
    by_cases h : q = ""
    · simp [sanitize_query, h] at hc
    · simp only [sanitize_query, h, if_false, hmktl] at hc
      have hc' : c ∈ (pyStripChars q.toList).filter (fun c => !harmfulChar c) := by
        revert hc
        split
        · exact fun hc => List.mem_of_mem_take hc
        · exact id
      have hp := List.of_mem_filter hc'
      simpa using hp

/-- C9 witness: a concrete query with harmful characters, and the empty
query. -/
theorem sanitize_query_spec_witness :
    (sanitize_query "a<b>c").length ≤ 500 ∧
    harmfulChar 'a' = false ∧
    sanitize_query "" = "" :=
  ⟨sanitize_query_spec.1 "a<b>c",
   sanitize_query_spec.2.1 "a<b>c" 'a' (by decide),
   sanitize_query_spec.2.2⟩

/-- Each mapped element appears contiguously in a `pyJoin` of the mapped
list. -/
theorem pyJoin_decomp (sep : String) (f : String → String) :
    ∀ (rs : List String) (r : String), r ∈ rs →
      ∃ a b, pyJoin sep (rs.map f) = a ++ f r ++ b := by
  intro rs
  induction rs with
  | nil => intro r hr; cases hr
  | cons x xs ih =>
    intro r hr
    cases hr with
    | head =>
      cases xs with
      | nil => exact ⟨"", "", by simp [pyJoin]⟩
      | cons y ys =>
        exact ⟨"", sep ++ pyJoin sep ((y :: ys).map f),
          by simp [pyJoin, String.append_assoc]⟩
    | tail _ hmem =>
      obtain ⟨a, b, hab⟩ := ih r hmem
      cases xs with
      | nil => cases hmem
      | cons y ys =>
        simp only [List.map] at hab
        exact ⟨f x ++ sep ++ a, b,
          by simp [pyJoin, hab, String.append_assoc]⟩

/-- C7: `write_report` makes exactly one LLM agent call, on an input that
aggregates the original query with all the search summaries (the query
and the `repr` of every summary occur in it), and returns the resulting
report — a structure carrying `short_summary`, `markdown_report` and
`follow_up_questions` — unchanged. -/
theorem write_report_one_call (env : Env) (q : String) (rs : List String) :
    (write_report env q rs).2 = [AgentCall.writer (writerInput q rs)] ∧
    (write_report env q rs).2.length = 1 ∧
    writerInput q rs =
      "Original query: " ++ q ++ "\nSummarized search results: " ++
        pyListRepr rs ∧
    (∃ a b, writerInput q rs = a ++ q ++ b) ∧
    (∀ r ∈ rs, ∃ a b, writerInput q rs = a ++ pyStrRepr r ++ b) ∧
    (write_report env q rs).1 = env.writer (writerInput q rs) ∧
    (∀ rep, (write_report env q rs).1 = Except.ok rep →
      rep = ⟨rep.short_summary, rep.markdown_report, rep.follow_up_questions⟩) := by
  refine ⟨rfl, rfl, rfl, ?_, ?_, rfl, ?_⟩
  · exact ⟨"Original query: ",
      "\nSummarized search results: " ++ pyListRepr rs,
      by simp [writerInput, String.append_assoc]⟩
  · intro r hr
    obtain ⟨a, b, hab⟩ := pyJoin_decomp ", " pyStrRepr rs r hr
    refine ⟨"Original query: " ++ q ++ "\nSummarized search results: " ++ "[" ++ a,
      b ++ "]", ?_⟩
    simp only [writerInput, pyListRepr, hab, String.append_assoc]
  · intro rep _
    rfl

/-- C7 witness: one writer call on a concrete query and summary list, the
summary occurring in the aggregated input. -/
theorem write_report_one_call_witness :
    (write_report envW "demo" ["news summary"]).2 =
      [AgentCall.writer (writerInput "demo" ["news summary"])] ∧
    (∃ a b, writerInput "demo" ["news summary"] =
      a ++ pyStrRepr "news summary" ++ b) :=
  ⟨(write_report_one_call envW "demo" ["news summary"]).1,
   (write_report_one_call envW "demo" ["news summary"]).2.2.2.2.1
     "news summary" (by decide)⟩

/-! ## Lemmas about the word-count dictionary of `extract_keywords` -/

/-- Bumping a word increments its looked-up count. -/
theorem bump_lookup_eq (w : String) :
    ∀ acc, lookupCount w (bumpCount w acc) = lookupCount w acc + 1 := by
  intro acc
  induction acc with
  | nil => simp [bumpCount, lookupCount]
  | cons p ps ih =>
    by_cases hp : p.1 = w
    · simp [bumpCount, lookupCount, hp]
    · simp [bumpCount, lookupCount, hp, ih]

/-- Bumping a word leaves the counts of other words unchanged. -/
theorem bump_lookup_ne (v w : String) (hvw : v ≠ w) :
    ∀ acc, lookupCount v (bumpCount w acc) = lookupCount v acc := by
  have hwv : w ≠ v := Ne.symm hvw
  intro acc
  induction acc with
  | nil => simp [bumpCount, lookupCount, hwv]
  | cons p ps ih =>
    by_cases hp : p.1 = w
    · simp [bumpCount, lookupCount, hp, hvw, hwv]
    · by_cases hv : p.1 = v
      · simp [bumpCount, lookupCount, hp, hv, hvw, hwv]
      · simp [bumpCount, lookupCount, hp, hv, ih]

/-- The dictionary loop adds the occurrences of the remaining words to the
accumulated counts. -/
theorem countWords_loop :
    ∀ (ws : List String) (acc : List (String × Nat)) (w : String),
      lookupCount w (ws.foldl (fun a x => bumpCount x a) acc) =
        lookupCount w acc + ws.count w := by
  intro ws
  induction ws with
  | nil => intro acc w; simp
  | cons x xs ih =>
    intro acc w
    rw [List.foldl_cons, ih]
    by_cases hx : x = w
    · subst hx
      rw [bump_lookup_eq]
      simp [List.count_cons]
      omega
    · rw [bump_lookup_ne w x (Ne.symm hx)]
      simp [List.count_cons, Ne.symm hx]

/-- Looking a word up in the finished dictionary gives its number of
occurrences. -/
theorem lookupCount_countWords (ws : List String) (w : String) :
    lookupCount w (countWords ws) = ws.count w := by
  rw [countWords, countWords_loop ws [] w]
  simp [lookupCount]

/-- Every entry of a bumped dictionary has the bumped key or a key already
present. -/
theorem mem_bump_keys (w : String) :
    ∀ acc (q : String × Nat), q ∈ bumpCount w acc →
      q.1 = w ∨ ∃ p ∈ acc, q.1 = p.1 := by
  intro acc
  induction acc with
  | nil =>
    intro q hq
    simp [bumpCount] at hq
    exact Or.inl (by simp [hq])
  | cons p ps ih =>
    intro q hq
    by_cases hp : p.1 = w
    · simp only [bumpCount, hp, if_pos rfl] at hq
      rcases List.mem_cons.mp hq with h | h
      · exact Or.inl (by simp [h, hp])
      · exact Or.inr ⟨q, List.mem_cons_of_mem _ h, rfl⟩
    · simp only [bumpCount, hp, if_false] at hq
      rcases List.mem_cons.mp hq with h | h
      · exact Or.inr ⟨p, List.mem_cons_self _ _, by simp [h]⟩
      · rcases ih q h with h' | ⟨p', hp', he⟩
        · exact Or.inl h'
        · exact Or.inr ⟨p', List.mem_cons_of_mem _ hp', he⟩

/-- Bumping preserves pairwise-distinct keys. -/
theorem bump_keys_pairwise (w : String) :
    ∀ acc, acc.Pairwise (fun p q => p.1 ≠ q.1) →
      (bumpCount w acc).Pairwise (fun p q => p.1 ≠ q.1) := by
  intro acc
  induction acc with
  | nil => intro _; simp [bumpCount]
  | cons p ps ih =>
    intro h
    rw [List.pairwise_cons] at h
    by_cases hp : p.1 = w
    · simp only [bumpCount, hp, if_pos rfl]
      exact List.pairwise_cons.mpr ⟨fun q hq => hp ▸ h.1 q hq, h.2⟩
    · simp only [bumpCount, hp, if_false]
      refine List.pairwise_cons.mpr ⟨?_, ih h.2⟩
      intro q hq
      rcases mem_bump_keys w ps q hq with h' | ⟨p', hp', he⟩
      · exact fun hcon => hp (hcon.trans h')
      · exact fun hcon => (h.1 p' hp') (hcon.trans he)

/-- The finished dictionary has pairwise-distinct keys. -/
theorem countWords_keys_pairwise (ws : List String) :
    (countWords ws).Pairwise (fun p q => p.1 ≠ q.1) := by
  suffices h : ∀ (l : List String) (acc : List (String × Nat)),
      acc.Pairwise (fun p q => p.1 ≠ q.1) →
      (l.foldl (fun a x => bumpCount x a) acc).Pairwise (fun p q => p.1 ≠ q.1) by
    exact h ws [] (by simp)
  intro l
  induction l with
  | nil => intro acc h; simpa using h
  | cons x xs ih =>
    intro acc h
    rw [List.foldl_cons]
    exact ih (bumpCount x acc) (bump_keys_pairwise x acc h)

/-- With pairwise-distinct keys, each entry is its own first-match lookup. -/
theorem lookup_of_mem_pairwise :
    ∀ (acc : List (String × Nat)), acc.Pairwise (fun p q => p.1 ≠ q.1) →
      ∀ p ∈ acc, lookupCount p.1 acc = p.2 := by
  intro acc
  induction acc with
  | nil => intro _ p hp; cases hp
  | cons q qs ih =>
    intro h p hp
    rw [List.pairwise_cons] at h
    rcases List.mem_cons.mp hp with he | hm
    · subst he; simp [lookupCount]
    · have hq : ¬ q.1 = p.1 := h.1 p hm
      simp only [lookupCount, hq, if_false]
      exact ih h.2 p hm

/-- Every count in a bumped dictionary is positive if it was before. -/
theorem bump_pos (w : String) :
    ∀ acc, (∀ p ∈ acc, 0 < p.2) → ∀ p ∈ bumpCount w acc, 0 < p.2 := by
  intro acc
  induction acc with
  | nil =>
    intro _ p hp
    simp [bumpCount] at hp
    simp [hp]
  | cons q qs ih =>
    intro h p hp
    by_cases hq : q.1 = w
    · simp only [bumpCount, hq, if_pos rfl] at hp
      rcases List.mem_cons.mp hp with he | hm
      · simp [he]
      · exact h p (List.mem_cons_of_mem _ hm)
    · simp only [bumpCount, hq, if_false] at hp
      rcases List.mem_cons.mp hp with he | hm
      · exact he ▸ h q (List.mem_cons_self _ _)
      · exact ih (fun r hr => h r (List.mem_cons_of_mem _ hr)) p hm

/-- Every count in the finished dictionary is positive. -/
theorem countWords_pos (ws : List String) :
    ∀ p ∈ countWords ws, 0 < p.2 := by
  suffices h : ∀ (l : List String) (acc : List (String × Nat)),
      (∀ p ∈ acc, 0 < p.2) →
      ∀ p ∈ l.foldl (fun a x => bumpCount x a) acc, 0 < p.2 by
    exact h ws [] (by simp)
  intro l
  induction l with
  | nil => intro acc h; simpa using h
  | cons x xs ih =>
    intro acc h
    rw [List.foldl_cons]
    exact ih (bumpCount x acc) (bump_pos x acc h)

/-- Every entry of the finished dictionary pairs a word of the input list
with its exact number of occurrences there. -/
theorem mem_countWords (ws : List String) (p : String × Nat)
    (hp : p ∈ countWords ws) : p.2 = ws.count p.1 ∧ p.1 ∈ ws := by
  have h1 : lookupCount p.1 (countWords ws) = p.2 :=
    lookup_of_mem_pairwise (countWords ws) (countWords_keys_pairwise ws) p hp
  have h2 := lookupCount_countWords ws p.1
  constructor
  · omega
  · have hpos : 0 < p.2 := countWords_pos ws p hp
    have : 0 < ws.count p.1 := by omega
    exact List.count_pos_iff.mp this

/-! ## Lemmas about the descending sort of `extract_keywords` -/

/-- Stable descending insertion is a permutation of consing. -/
theorem insertByCountDesc_perm (p : String × Nat) :
    ∀ l, (insertByCountDesc p l).Perm (p :: l) := by
  intro l
  induction l with
  | nil => simp [insertByCountDesc]
  | cons q qs ih =>
    by_cases h : q.2 < p.2
    · simp [insertByCountDesc, h]
    · simp only [insertByCountDesc, h, if_false]
      exact (ih.cons q).trans (List.Perm.swap p q qs)

/-- Members of an insertion are the inserted pair or old members. -/
theorem mem_insertByCountDesc (p q : String × Nat) (l : List (String × Nat))
    (hq : q ∈ insertByCountDesc p l) : q = p ∨ q ∈ l :=
  List.mem_cons.mp ((insertByCountDesc_perm p l).mem_iff.mp hq)

/-- Stable descending insertion preserves descending order by count. -/
theorem insertByCountDesc_pairwise (p : String × Nat) :
    ∀ l, l.Pairwise (fun a b => b.2 ≤ a.2) →
      (insertByCountDesc p l).Pairwise (fun a b => b.2 ≤ a.2) := by
  intro l
  induction l with
  | nil => intro _; simp [insertByCountDesc]
  | cons q qs ih =>
    intro h
    rw [List.pairwise_cons] at h
    by_cases hlt : q.2 < p.2
    · simp only [insertByCountDesc, hlt, if_pos]
      refine List.pairwise_cons.mpr ⟨?_, List.pairwise_cons.mpr h⟩
      intro r hr
      rcases List.mem_cons.mp hr with he | hm
      · subst he; omega
      · have := h.1 r hm
        omega
    · simp only [insertByCountDesc, hlt, if_false]
      refine List.pairwise_cons.mpr ⟨?_, ih h.2⟩
      intro r hr
      rcases mem_insertByCountDesc p r qs hr with he | hm
      · subst he; omega
      · exact h.1 r hm

/-- Sorting by `sortByCountDesc` permutes the input. -/
theorem sortByCountDesc_perm (l : List (String × Nat)) :
    (sortByCountDesc l).Perm l := by
  suffices h : ∀ (l acc : List (String × Nat)),
      (l.foldl (fun acc p => insertByCountDesc p acc) acc).Perm (acc ++ l) by
    simpa using h l []
  intro l
  induction l with
  | nil => intro acc; simp
  | cons x xs ih =>
    intro acc
    rw [List.foldl_cons]
    refine (ih (insertByCountDesc x acc)).trans ?_
    refine (List.Perm.append_right xs (insertByCountDesc_perm x acc)).trans ?_
    exact (List.perm_middle).symm

/-- Sorting by `sortByCountDesc` yields descending order by count. -/
theorem sortByCountDesc_pairwise (l : List (String × Nat)) :
    (sortByCountDesc l).Pairwise (fun a b => b.2 ≤ a.2) := by
  suffices h : ∀ (l acc : List (String × Nat)),
      acc.Pairwise (fun a b => b.2 ≤ a.2) →
      (l.foldl (fun acc p => insertByCountDesc p acc) acc).Pairwise
        (fun a b => b.2 ≤ a.2) by
    exact h l [] (by simp)
  intro l
  induction l with
  | nil => intro acc h; simpa using h
  | cons x xs ih =>
    intro acc h
    rw [List.foldl_cons]
    exact ih (insertByCountDesc x acc) (insertByCountDesc_pairwise x acc h)

/-! ## Lemmas about word runs and substring occurrence -/

/-- The state of the `wordRuns` fold: the current run is a prefix of the
input, every finished run occurs contiguously in the input. -/
theorem wordRuns_fold_inv (cs : List Char) :
    (∃ post, cs = (cs.foldr wordRunsAux ([], [])).1 ++ post) ∧
    (∀ r ∈ (cs.foldr wordRunsAux ([], [])).2,
      ∃ pre post, cs = pre ++ r ++ post) := by
  induction cs with
  | nil => exact ⟨⟨[], rfl⟩, by simp⟩
  | cons c cs ih =>
    obtain ⟨⟨post0, hpost0⟩, hruns⟩ := ih
    by_cases hw : pyIsWordChar c
    · constructor
      · refine ⟨post0, ?_⟩
        rw [List.foldr_cons]
        show c :: cs = (wordRunsAux c (cs.foldr wordRunsAux ([], []))).1 ++ post0
        rw [wordRunsAux, if_pos hw, List.cons_append]
        exact congrArg (c :: ·) hpost0
      · intro r hr
        simp only [List.foldr_cons, wordRunsAux, hw, if_pos] at hr
        obtain ⟨pre, post, hpp⟩ := hruns r hr
        exact ⟨c :: pre, post, by simp [hpp]⟩
    · constructor
      · exact ⟨c :: cs, by simp [wordRunsAux, hw]⟩
      · intro r hr
        simp only [List.foldr_cons, wordRunsAux, hw, if_false] at hr
        by_cases hemp : (cs.foldr wordRunsAux ([], [])).1.isEmpty
        · rw [if_pos hemp] at hr
          obtain ⟨pre, post, hpp⟩ := hruns r hr
          exact ⟨c :: pre, post, by simp [hpp]⟩
        · rw [if_neg hemp] at hr
          rcases List.mem_cons.mp hr with he | hm
          · exact ⟨[c], post0, by simp [he ▸ hpost0]⟩
          · obtain ⟨pre, post, hpp⟩ := hruns r hm
            exact ⟨c :: pre, post, by simp [hpp]⟩

/-- Every run produced by `wordRuns` occurs contiguously in the input. -/
theorem wordRuns_decomp (cs : List Char) (r : List Char)
    (hr : r ∈ wordRuns cs) : ∃ pre post, cs = pre ++ r ++ post := by
  obtain ⟨⟨post0, hpost0⟩, hruns⟩ := wordRuns_fold_inv cs
  unfold wordRuns at hr
  by_cases hemp : (cs.foldr wordRunsAux ([], [])).1.isEmpty
  · rw [if_pos hemp] at hr
    exact hruns r hr
  · rw [if_neg hemp] at hr
    rcases List.mem_cons.mp hr with he | hm
    · exact ⟨[], post0, by simp [he ▸ hpost0]⟩
    · exact hruns r hm

/-- A prefix check succeeds on an immediate prefix. -/
theorem isPrefixList_append (pat : List Char) :
    ∀ post, isPrefixList pat (pat ++ post) = true := by
  induction pat with
  | nil => intro post; rfl
  | cons a as ih => intro post; simp [isPrefixList, ih]

/-- The substring check succeeds on an immediate prefix occurrence. -/
theorem containsSub_self_append (pat post : List Char) :
    containsSub pat (pat ++ post) = true := by
  cases pat with
  | nil => cases post <;> simp [containsSub, isPrefixList]
  | cons a as =>
    show containsSub (a :: as) (a :: (as ++ post)) = true
    rw [containsSub]
    have h : isPrefixList (a :: as) (a :: (as ++ post)) = true := by
      simp [isPrefixList, isPrefixList_append as post]
    simp [h]

/-- A contiguous occurrence makes the substring check succeed. -/
theorem containsSub_of_decomp (pat : List Char) :
    ∀ (pre post cs : List Char), cs = pre ++ pat ++ post →
      containsSub pat cs = true := by
  intro pre
  induction pre with
  | nil =>
    intro post cs hcs
    subst hcs
    simpa using containsSub_self_append pat post
  | cons c pre ih =>
    intro post cs hcs
    subst hcs
    show containsSub pat (c :: (pre ++ pat ++ post)) = true
    rw [containsSub, ih post (pre ++ pat ++ post) rfl]
    simp

/-- Lowering a character never yields an ASCII uppercase letter. -/
theorem pyCharLower_not_upper (c : Char) :
    isAsciiUpper (pyCharLower c) = false := by
  unfold pyCharLower
  cases hf : asciiCaseTable.find? (fun p => p.1 = c) with
  | none =>
    simp only []
    rw [isAsciiUpper, List.any_eq_false]
    intro p hp
    have := List.find?_eq_none.mp hf p hp
    simpa using this
  | some p =>
    have hmem : p ∈ asciiCaseTable := List.mem_of_find?_eq_some hf
    simp only []
    revert hmem
    have : ∀ q ∈ asciiCaseTable, isAsciiUpper q.2 = false := by decide
    exact fun hmem => this p hmem

/-- C10 counterexample: on an uppercase input the occurrence conjunct
of the claim fails — the extracted keyword `"hello"` does not occur in the
input text `"HELLO HELLO HELLO"` (it occurs only in its lowercasing). -/
theorem extract_keywords_case_counterexample :
    extract_keywords "HELLO HELLO HELLO" 10 = ["hello"] ∧
    containsSub "hello".toList "HELLO HELLO HELLO".toList = false := by decide

/-- C10 (amended): `extract_keywords` returns at most `max_keywords`
keywords, each lowercase (no ASCII uppercase letter), longer than 2
characters, not a stop word, and occurring in the lowercased input text;
the list is ordered by descending frequency of occurrence. -/
theorem extract_keywords_spec (text : String) (max_keywords : Nat) :
    (extract_keywords text max_keywords).length ≤ max_keywords ∧
    (∀ w ∈ extract_keywords text max_keywords,
      (∀ c ∈ w.toList, isAsciiUpper c = false) ∧
      2 < w.length ∧
      stop_words.contains w = false ∧
      containsSub w.toList (pyLower text).toList = true) ∧
    (extract_keywords text max_keywords).Pairwise
      (fun a b => wordFreq text b ≤ wordFreq text a) := by
  refine ⟨?_, ?_, ?_⟩
  · simp only [extract_keywords, List.length_map, List.length_take]
    omega
  · intro w hw
    simp only [extract_keywords, List.mem_map] at hw
    obtain ⟨p, hpTake, hpf⟩ := hw
    have hpSorted := List.mem_of_mem_take hpTake
    have hpCount : p ∈ countWords (filteredWords text) :=
      (sortByCountDesc_perm (countWords (filteredWords text))).mem_iff.mp hpSorted
    have hwFiltered : w ∈ filteredWords text :=
      hpf ▸ (mem_countWords (filteredWords text) p hpCount).2
    rw [filteredWords, List.mem_filter] at hwFiltered
    obtain ⟨hwMap, hwPred⟩ := hwFiltered
    have hlen2 : 2 < w.length ∧ stop_words.contains w = false := by
      rw [Bool.and_eq_true] at hwPred
      refine ⟨of_decide_eq_true hwPred.2, ?_⟩
      have := hwPred.1
      simpa using this
    obtain ⟨r, hrun, hmk⟩ := List.mem_map.mp hwMap
    have hwl : w.toList = r := by rw [← hmk]; rfl
    obtain ⟨pre, post, hpp⟩ := wordRuns_decomp (pyLower text).toList r hrun
    refine ⟨?_, hlen2.1, hlen2.2, ?_⟩
    · intro c hc
      rw [hwl] at hc
      have hcs : c ∈ (pyLower text).toList := by
        rw [hpp]
        simp only [List.append_assoc, List.mem_append]
        exact Or.inr (Or.inl hc)
      have : (pyLower text).toList = text.toList.map pyCharLower := rfl
      rw [this, List.mem_map] at hcs
      obtain ⟨c0, _, hc0⟩ := hcs
      exact hc0 ▸ pyCharLower_not_upper c0
    · rw [hwl]
      exact containsSub_of_decomp r pre post (pyLower text).toList hpp
  · have hs := sortByCountDesc_pairwise (countWords (filteredWords text))
    have ht := List.Pairwise.sublist
      (List.take_sublist max_keywords
        (sortByCountDesc (countWords (filteredWords text)))) hs
    simp only [extract_keywords]
    rw [List.pairwise_map]
    refine ht.imp_of_mem ?_
    intro p q hp hq hle
    have hpC : p ∈ countWords (filteredWords text) :=
      (sortByCountDesc_perm _).mem_iff.mp (List.mem_of_mem_take hp)
    have hqC : q ∈ countWords (filteredWords text) :=
      (sortByCountDesc_perm _).mem_iff.mp (List.mem_of_mem_take hq)
    have hpv := (mem_countWords _ p hpC).1
    have hqv := (mem_countWords _ q hqC).1
    show wordFreq text q.1 ≤ wordFreq text p.1
    rw [wordFreq, wordFreq, ← hpv, ← hqv]
    exact hle

/-- C10 witness: a concrete mixed-case text whose top keyword satisfies
every amended conjunct. -/
theorem extract_keywords_spec_witness :
    (extract_keywords "Research AGENTS research" 10).length ≤ 10 ∧
    ((∀ c ∈ "research".toList, isAsciiUpper c = false) ∧
      2 < "research".length ∧
      stop_words.contains "research" = false ∧
      containsSub "research".toList
        (pyLower "Research AGENTS research").toList = true) :=
  ⟨(extract_keywords_spec "Research AGENTS research" 10).1,
   (extract_keywords_spec "Research AGENTS research" 10).2.1 "research"
     (by decide)⟩
